import Mathlib

/-!
Verification of the subtitle-generation pipeline (src/index.js).

The JavaScript source is shallowly embedded:
* JS numbers that hold times are modelled as exact rationals (ℚ);
  `Math.floor` is `Int.floor`, `Math.round` is round-half-up
  (`⌊x + 1/2⌋`), the JS `%` operator is the truncated remainder
  `a - b * trunc(a / b)`.
* JS strings are `String`; `String(…)` on an integer is `toString`,
  `padStart` and `trim` are modelled directly over the character list
  (`trim` restricted to the whitespace characters JS strips).
* Fallible async calls are `Except JsError`; `Promise.all` is modelled
  with an explicit completion order: the scheduler settles the
  in-flight requests in an arbitrary order (a permutation of the
  request indices), results are buffered into an index-addressed
  array, and the first rejection, in completion order, rejects the
  whole batch — exactly the semantics of `Promise.all`.
* Open JS objects (transcription segments may carry extra properties
  such as `id` or `avg_logprob` besides the ones the program reads)
  are modelled by an `extra` association list carried alongside the
  read fields; the object spread `{...seg, text}` is the record
  update that replaces `text` and keeps everything else.
* The orchestrator (`main`) is modelled as a state transformer over
  the set of files the run creates (extracted audio files, subtitle
  files, output videos); the fixed directory prefixes of the source
  are elided, file names are kept. External collaborators (ffmpeg,
  Whisper, the chat API) are parameters (`Collabs`).
-/

namespace SubGen

/-- A transcription segment as consumed by the pipeline: `start`/`end`
times in seconds, the segment `text`, and any extra properties the
transcription collaborator attached to the object. -/
structure Segment where
  start : ℚ
  «end» : ℚ
  text : String
  extra : List (String × String)
deriving DecidableEq, Repr

/-- A thrown / rejected JavaScript error value. -/
inductive JsError where
  /-- a rejected promise carrying an error message -/
  | rejection (msg : String)
  /-- a TypeError from reading a property of `undefined` -/
  | typeError
deriving DecidableEq, Repr

/-- One entry of the `messages` array of a chat-completion request. -/
structure ChatMessage where
  role : String
  content : String
deriving DecidableEq, Repr

/-- The request object passed to `openai.createChatCompletion`. -/
structure ChatRequest where
  model : String
  messages : List ChatMessage
deriving DecidableEq, Repr

/-- The `message` object of a chat-completion choice; `content` may be
absent (the source guards it with `?.`). -/
structure RespMessage where
  content : Option String
deriving DecidableEq, Repr

/-- One element of `data.choices`; `message` may be absent (the source
guards it with `?.`). -/
structure Choice where
  message : Option RespMessage
deriving DecidableEq, Repr

/-- The `data` payload of a chat-completion response. -/
structure ChatData where
  choices : List Choice
deriving DecidableEq, Repr

/-- A resolved chat-completion API response (`response.data.choices…`). -/
structure ChatResponse where
  data : ChatData
deriving DecidableEq, Repr

/-! ## JavaScript numeric and string primitives -/

/-- JS truncation toward zero, as used by the JS `%` operator. -/
def jsTrunc (x : ℚ) : ℤ :=
  if 0 ≤ x then ⌊x⌋ else ⌈x⌉

/-- The JS `%` operator on finite numbers: `a - b * trunc(a / b)`
(remainder with the sign of the dividend). -/
def jsRem (a b : ℚ) : ℚ :=
  a - b * (jsTrunc (a / b) : ℤ)

/-- JS `Math.round`: round half toward positive infinity. -/
def jsRound (x : ℚ) : ℤ :=
  ⌊x + 1/2⌋

/-- JS `String.prototype.padStart` with a single pad character. -/
def padStart (s : String) (n : ℕ) (c : Char) : String :=
  if n ≤ s.length then s else String.mk (List.replicate (n - s.length) c) ++ s

/-- The whitespace characters JS `trim` strips (ASCII whitespace plus
NBSP, BOM and the Unicode line separators). -/
def jsIsWhitespace (c : Char) : Bool :=
  c = ' ' || c = '\t' || c = '\n' || c = '\r' || c = '\x0b' || c = '\x0c' ||
    c = ' ' || c = '﻿' || c = ' ' || c = ' '

/-- JS `String.prototype.trim`: strip leading and trailing whitespace. -/
def jsTrim (s : String) : String :=
  String.mk (((s.toList.dropWhile jsIsWhitespace).reverse.dropWhile jsIsWhitespace).reverse)

/-- JS `String.prototype.toLowerCase`, restricted to the ASCII range
(the only case the extension filter needs). -/
def jsToLowerCase (s : String) : String :=
  String.mk (s.toList.map Char.toLower)

/-! ## secondsToSrtTime (src/index.js lines 216–228) -/

/-- Embedding of `secondsToSrtTime`: converts fractional seconds to an
`HH:MM:SS,mmm` SRT timestamp, field by field as the source computes it. -/
def secondsToSrtTime (totalSeconds : ℚ) : String :=
  let hours : ℤ := ⌊totalSeconds / 3600⌋
  let minutes : ℤ := ⌊(jsRem totalSeconds 3600) / 60⌋
  let seconds : ℤ := ⌊jsRem totalSeconds 60⌋
  let milliseconds : ℤ := jsRound ((totalSeconds - (⌊totalSeconds⌋ : ℤ)) * 1000)
  let hh := padStart (toString hours) 2 '0'
  let mm := padStart (toString minutes) 2 '0'
  let ss := padStart (toString seconds) 2 '0'
  let mmm := padStart (toString milliseconds) 3 '0'
  hh ++ ":" ++ mm ++ ":" ++ ss ++ "," ++ mmm

/-- Rendering of the `HH:MM:SS,mmm` timestamp exactly as §4.2 of the
spec words it: `HH = floor(seconds / 3600)`, `MM = floor((seconds mod
3600) / 60)`, `SS = floor(seconds mod 60)`, `mmm = round((seconds −
floor(seconds)) × 1000)`, each zero-padded (to 2, 2, 2, 3), with `mod`
the mathematical (floor) modulus and `round` the pinned round-half-up
rule. -/
def specSrtTime (q : ℚ) : String :=
  padStart (toString (⌊q / 3600⌋ : ℤ)) 2 '0' ++ ":" ++
    padStart (toString (⌊(q - 3600 * (⌊q / 3600⌋ : ℤ)) / 60⌋ : ℤ)) 2 '0' ++ ":" ++
    padStart (toString (⌊q - 60 * (⌊q / 60⌋ : ℤ)⌋ : ℤ)) 2 '0' ++ "," ++
    padStart (toString (⌊(q - (⌊q⌋ : ℤ)) * 1000 + 1/2⌋ : ℤ)) 3 '0'

/-! ## buildSrtFromSegments (src/index.js lines 200–211) -/

/-- Embedding of `buildSrtFromSegments`: the source iterates the
segments with their position `i` and appends, per segment, the line
`i+1`, the timing line, the text line, and a blank separator line. -/
def buildSrtFromSegments (segments : List Segment) : String :=
  segments.enum.foldl
    (fun srt p =>
      srt ++ (toString (p.1 + 1) ++ "\n") ++
        (secondsToSrtTime p.2.start ++ " --> " ++ secondsToSrtTime p.2.«end» ++ "\n") ++
        (p.2.text ++ "\n\n"))
    ""

/-- One cue block as §4.2 of the spec words it: for the segment at
0-based position `i`, the integer `i+1` on its own line, then
`formattedStart --> formattedEnd`, then the text, then one blank
line. -/
def srtCueBlock (i : ℕ) (seg : Segment) : String :=
  (toString (i + 1) ++ "\n") ++
    (secondsToSrtTime seg.start ++ " --> " ++ secondsToSrtTime seg.«end» ++ "\n") ++
    (seg.text ++ "\n\n")

/-- The subtitle document as the spec describes it: the cue blocks of
the segments in input order, numbered consecutively from `k+1` on;
zero segments produce the empty document. -/
def srtDocument : ℕ → List Segment → String
  | _, [] => ""
  | k, seg :: rest => srtCueBlock k seg ++ srtDocument (k + 1) rest

/-! ## translateSegmentsWithGPT (src/index.js lines 165–195) -/

/-- The system message of every translation request (the template
literal of lines 173–174, including its trailing space and newline). -/
def systemPrompt (fromLang toLang : String) : String :=
  "Você é um tradutor que converte textos do idioma " ++ fromLang ++
    " para o " ++ toLang ++ ". \nResponda somente com a tradução, sem comentários adicionais."

/-- The chat-completion request issued for one segment. -/
def mkChatRequest (fromLang toLang model : String) (seg : Segment) : ChatRequest :=
  { model := model
    messages := [
      { role := "system", content := systemPrompt fromLang toLang },
      { role := "user", content := seg.text }] }

/-- The batch of Translation Client calls the source issues:
one `createChatCompletion` per segment (`segments.map`). The client is
indexed by the request's position to model that distinct invocations of
the external collaborator may settle differently. -/
def translationCalls (client : ℕ → ChatRequest → Except JsError ChatResponse)
    (fromLang toLang model : String) (segments : List Segment) :
    List (Except JsError ChatResponse) :=
  segments.enum.map (fun p => client p.1 (mkChatRequest fromLang toLang model p.2))

/-- One scheduler step of `Promise.all`: the promise at index `j`
settles; a fulfilled result is written into slot `j` of the
index-addressed buffer, a rejection writes nothing. -/
def fillStep {ε α : Type} (promises : List (Except ε α)) (buf : List (Option α)) (j : ℕ) :
    List (Option α) :=
  match promises[j]? with
  | some (Except.ok v) => buf.set j (some v)
  | _ => buf

/-- The `Promise.all` result buffer after the promises settle in the
given completion order, starting from an empty pre-sized buffer. -/
def fillBuffer {ε α : Type} (promises : List (Except ε α)) (order : List ℕ) :
    List (Option α) :=
  order.foldl (fillStep promises) (List.replicate promises.length none)

/-- The first rejection to settle, in completion order, if any. -/
def firstRejection {ε α : Type} (promises : List (Except ε α)) (order : List ℕ) : Option ε :=
  order.findSome? (fun j =>
    match promises[j]? with
    | some (Except.error e) => some e
    | _ => none)

/-- `Promise.all promises` under the completion order `order`: rejects
with the first rejection to settle, otherwise fulfills with the
index-addressed buffer of results. -/
def promiseAll {ε α : Type} (promises : List (Except ε α)) (order : List ℕ) :
    Except ε (List (Option α)) :=
  match firstRejection promises order with
  | some e => Except.error e
  | none => Except.ok (fillBuffer promises order)

/-- The source expression `resp.data.choices[0].message?.content?.trim()
|| ''`: reading `choices[0]` of an empty array yields `undefined` and
the subsequent `.message` access throws a TypeError; otherwise the
optional chain and the `|| ''` default collapse a missing message,
missing content, or all-whitespace content to the empty string. -/
def segmentText (resp : ChatResponse) : Except JsError String :=
  match resp.data.choices with
  | [] => Except.error JsError.typeError
  | c :: _ => Except.ok (((c.message.bind RespMessage.content).map jsTrim).getD "")

/-- The translated text taken from a response with at least one choice
(the value `segmentText` fulfills with in that case). -/
def respText (resp : ChatResponse) : String :=
  match resp.data.choices with
  | [] => ""
  | c :: _ => ((c.message.bind RespMessage.content).map jsTrim).getD ""

/-- The body of the final `segments.map((seg, i) => …)`: read the
buffered response at index `i`, extract the translated text, and build
`{...seg, text: translatedText}`. A missing buffer entry (impossible
when every request settled) would throw a TypeError like the source
would on `undefined.data`. -/
def translatedSegmentAt (responses : List (Option ChatResponse)) (i : ℕ) (seg : Segment) :
    Except JsError Segment :=
  match responses[i]? with
  | some (some r) =>
    match segmentText r with
    | Except.error e => Except.error e
    | Except.ok t => Except.ok { seg with text := t }
  | _ => Except.error JsError.typeError

/-- Index-aware sequencing of a fallible per-segment map, as JS
`Array.prototype.map` behaves when its callback can throw: the first
thrown error propagates. -/
def mapIdxExcept (f : ℕ → Segment → Except JsError Segment) :
    ℕ → List Segment → Except JsError (List Segment)
  | _, [] => Except.ok []
  | n, seg :: rest =>
    match f n seg with
    | Except.error e => Except.error e
    | Except.ok s =>
      match mapIdxExcept f (n + 1) rest with
      | Except.error e => Except.error e
      | Except.ok tail => Except.ok (s :: tail)

/-- Embedding of `translateSegmentsWithGPT`: issue one request per
segment, await them all (`Promise.all` under the given completion
order), then map each segment with its index to `{...seg, text:
translatedText}` from the index-addressed response buffer. -/
def translateSegmentsWithGPT (segments : List Segment) (fromLang toLang model : String)
    (client : ℕ → ChatRequest → Except JsError ChatResponse) (order : List ℕ) :
    Except JsError (List Segment) :=
  match promiseAll (translationCalls client fromLang toLang model segments) order with
  | Except.error e => Except.error e
  | Except.ok responses => mapIdxExcept (translatedSegmentAt responses) 0 segments

/-! ## The orchestrator (src/index.js lines 44–130) and its helpers -/

/-- The position of the last `'.'` in a character list, if any. -/
def lastDotIdx (cs : List Char) : Option ℕ :=
  cs.enum.foldl (fun acc p => if p.2 = '.' then some p.1 else acc) none

/-- `path.extname` for a bare file name: the suffix from the last dot,
unless that dot is the first character. -/
def extname (s : String) : String :=
  match lastDotIdx s.toList with
  | some i => if i = 0 then "" else String.mk (s.toList.drop i)
  | none => ""

/-- `path.basename(file, path.extname(file))` for a bare file name:
the name with its extension stripped. -/
def basenameWithoutExt (s : String) : String :=
  let ext := extname s
  if ext.length = 0 then s else String.mk (s.toList.take (s.length - ext.length))

/-- The temporary audio path `extractAudio` resolves with for a video
file: its base name with an `.mp3` suffix. -/
def audioPathOf (videoFile : String) : String :=
  basenameWithoutExt videoFile ++ ".mp3"

/-- The subtitle file name `"${baseName} with subtitles.srt"`. -/
def srtPathOf (videoFile : String) : String :=
  basenameWithoutExt videoFile ++ " with subtitles.srt"

/-- The output video name `"${baseName} with subtitles.mp4"`. -/
def outputPathOf (videoFile : String) : String :=
  basenameWithoutExt videoFile ++ " with subtitles.mp4"

/-- The extensions accepted by the video filter of `main`. -/
def validExtensions : List String := [".mp4", ".mov", ".avi", ".mkv"]

/-- The external collaborators of one run: ffmpeg audio extraction
(succeeds or yields an error), Whisper transcription, the chat API (a
per-video client indexed by request position) together with the
completion order its responses settle in, and ffmpeg subtitle
burning. -/
structure Collabs where
  ffmpegExtract : String → Option JsError
  transcribe : String → Except JsError (List Segment)
  chatClient : String → ℕ → ChatRequest → Except JsError ChatResponse
  completionOrder : String → List ℕ
  ffmpegBurn : String → String → String → Option JsError

/-- The files a run has created and not removed: extracted audio
files, written subtitle files (with their contents), and produced
output videos. -/
structure FsState where
  audioFiles : List String
  srtFiles : List (String × String)
  outputs : List String
deriving DecidableEq, Repr

/-- The state before any video is processed. -/
def initFs : FsState := { audioFiles := [], srtFiles := [], outputs := [] }

/-- Embedding of `extractAudio` (lines 142–155): run ffmpeg; on success
resolve with the audio path derived from the video name, otherwise
reject with ffmpeg's error. -/
def extractAudio (c : Collabs) (videoPath : String) : Except JsError String :=
  match c.ffmpegExtract videoPath with
  | some e => Except.error e
  | none => Except.ok (audioPathOf videoPath)

/-- Embedding of `burnSubtitles` (lines 233–245): run ffmpeg; on
success resolve with the output path, otherwise reject. -/
def burnSubtitles (c : Collabs) (videoPath srtPath outputPath : String) :
    Except JsError String :=
  match c.ffmpegBurn videoPath srtPath outputPath with
  | some e => Except.error e
  | none => Except.ok outputPath

/-- The body of the per-video loop of `main` (lines 70–124): extract
audio, transcribe, translate, build and write the SRT, burn the
subtitles, then remove the temporary audio file. Any rejection leaves
the loop body at that point with the files created so far; the audio
file is removed only at the end of the fully successful path, exactly
as in the source. -/
def processVideo (c : Collabs) (fromLang toLang : String) (st : FsState) (videoFile : String) :
    FsState × Option JsError :=
  match extractAudio c videoFile with
  | Except.error e => (st, some e)
  | Except.ok audioPath =>
    let st1 : FsState := { st with audioFiles := st.audioFiles ++ [audioPath] }
    match c.transcribe audioPath with
    | Except.error e => (st1, some e)
    | Except.ok segments =>
      match translateSegmentsWithGPT segments fromLang toLang "gpt-4"
          (c.chatClient videoFile) (c.completionOrder videoFile) with
      | Except.error e => (st1, some e)
      | Except.ok translatedSegments =>
        let srtContent := buildSrtFromSegments translatedSegments
        let st2 : FsState :=
          { st1 with srtFiles := st1.srtFiles ++ [(srtPathOf videoFile, srtContent)] }
        match burnSubtitles c videoFile (srtPathOf videoFile) (outputPathOf videoFile) with
        | Except.error e => (st2, some e)
        | Except.ok outPath =>
          let st3 : FsState := { st2 with outputs := st2.outputs ++ [outPath] }
          ({ st3 with audioFiles := st3.audioFiles.filter (fun a => a != audioPath) }, none)

/-- The `for … of videoFiles` loop of `main`: process the videos in
order; a rejection anywhere in a loop body propagates to the single
try/catch wrapping the whole loop, which logs it and returns, so the
remaining videos are not attempted. -/
def runLoop (c : Collabs) (fromLang toLang : String) : FsState → List String → FsState
  | st, [] => st
  | st, v :: rest =>
    match processVideo c fromLang toLang st v with
    | (st', none) => runLoop c fromLang toLang st' rest
    | (st', some _) => st'

/-- Embedding of `main`: filter the directory listing down to video
files by extension, then run the per-video loop from the empty state
inside one try/catch. -/
def main (c : Collabs) (fromLang toLang : String) (files : List String) : FsState :=
  let videoFiles := files.filter (fun f => validExtensions.contains (jsToLowerCase (extname f)))
  runLoop c fromLang toLang initFs videoFiles

/-! ## Concrete data used by witnesses and counterexamples -/

/-- A response with one choice whose trimmed content is `"ok"`. -/
def okResp : ChatResponse :=
  { data := { choices := [{ message := some { content := some "ok" } }] } }

/-- Two distinct well-formed responses, one per request index. -/
def demoResp (i : ℕ) : ChatResponse :=
  if i = 0 then { data := { choices := [{ message := some { content := some " Hello " } }] } }
  else { data := { choices := [{ message := some { content := some "How are you?" } }] } }

/-- Two transcript segments, each carrying an upstream `id` property. -/
def demoSegments : List Segment :=
  [{ start := 0, «end» := 1, text := "Hallo", extra := [("id", "0")] },
   { start := 1, «end» := 2, text := "Wie geht es", extra := [("id", "1")] }]

/-- A Translation Client whose request at index `i` fulfills with
`demoResp i`. -/
def demoClient : ℕ → ChatRequest → Except JsError ChatResponse :=
  fun i _ => Except.ok (demoResp i)

/-- The translation of `demoSegments` under `demoClient`. -/
def demoOut : List Segment :=
  [{ start := 0, «end» := 1, text := "Hello", extra := [("id", "0")] },
   { start := 1, «end» := 2, text := "How are you?", extra := [("id", "1")] }]

/-- A Translation Client whose request at index 0 rejects and whose
other requests fulfill. -/
def failClient0 : ℕ → ChatRequest → Except JsError ChatResponse :=
  fun i _ =>
    if i = 0 then Except.error (JsError.rejection "boom") else Except.ok okResp

/-- A Translation Client whose request at index 1 rejects and whose
other requests fulfill. -/
def failClient1 : ℕ → ChatRequest → Except JsError ChatResponse :=
  fun i _ =>
    if i = 1 then Except.error (JsError.rejection "timeout") else Except.ok okResp

/-- Collaborators for a batch run in which transcription fails for the
audio of `a.mp4` and every other stage of every video succeeds. -/
def batchCollabs : Collabs :=
  { ffmpegExtract := fun _ => none
    transcribe := fun audioPath =>
      if audioPath = "a.mp3" then Except.error (JsError.rejection "transcription failed")
      else Except.ok []
    chatClient := fun _ i _ => Except.ok (demoResp i)
    completionOrder := fun _ => []
    ffmpegBurn := fun _ _ _ => none }

/-! ## Helper lemmas -/

theorem jsTrunc_of_nonneg {x : ℚ} (hx : 0 ≤ x) : jsTrunc x = ⌊x⌋ := by
  simp [jsTrunc, hx]

theorem jsRem_of_nonneg (a b : ℚ) (ha : 0 ≤ a) (hb : 0 ≤ b) :
    jsRem a b = a - b * (⌊a / b⌋ : ℤ) := by
  unfold jsRem
  rw [jsTrunc_of_nonneg (div_nonneg ha hb)]

theorem buildSrt_go (l : List Segment) : ∀ (k : ℕ) (acc : String),
    (l.enumFrom k).foldl
      (fun srt p =>
        srt ++ (toString (p.1 + 1) ++ "\n") ++
          (secondsToSrtTime p.2.start ++ " --> " ++ secondsToSrtTime p.2.«end» ++ "\n") ++
          (p.2.text ++ "\n\n")) acc
      = acc ++ srtDocument k l := by
  induction l with
  | nil => intro k acc; simp [srtDocument]
  | cons seg rest ih =>
    intro k acc
    rw [List.enumFrom_cons, List.foldl_cons, ih]
    simp [srtDocument, srtCueBlock, String.append_assoc]

theorem buildSrtFromSegments_eq_srtDocument (segments : List Segment) :
    buildSrtFromSegments segments = srtDocument 0 segments := by
  have h := buildSrt_go segments 0 ""
  unfold buildSrtFromSegments
  rw [show segments.enum = segments.enumFrom 0 from rfl, h]
  simp

theorem srtDocument_ignores_extra (l : List Segment) : ∀ k : ℕ,
    srtDocument k (l.map (fun s => { s with extra := [] })) = srtDocument k l := by
  induction l with
  | nil => intro k; rfl
  | cons seg rest ih => intro k; simp [srtDocument, srtCueBlock, ih]

/-! ## Claim C5 -/

/-- Claim C5: for every sequence of K translated segments,
`buildSrtFromSegments` emits exactly K cue blocks in input order — the
block at 0-based position i being `i+1` on its own line, the timing
line, the text, and one blank line — numbered 1..K from the position
alone (any upstream numbering carried in `extra` is ignored), and K = 0
yields the empty string. -/
theorem buildSrtFromSegments_structure (segments : List Segment) :
    buildSrtFromSegments segments = srtDocument 0 segments ∧
      buildSrtFromSegments ([] : List Segment) = "" ∧
      buildSrtFromSegments segments =
        buildSrtFromSegments (segments.map (fun s => { s with extra := [] })) := by
  refine ⟨buildSrtFromSegments_eq_srtDocument segments, rfl, ?_⟩
  rw [buildSrtFromSegments_eq_srtDocument, buildSrtFromSegments_eq_srtDocument,
    srtDocument_ignores_extra]

/-! ## Claim C4 -/

/-- Claim C4 counterexample: a segment with a negative `start` is not
detected and does not make the builder fail; `buildSrtFromSegments`
returns a complete document in which the malformed timing is rendered
as the nonstandard timestamp `-1:-1:-5,000`. -/
theorem buildSrt_negative_timing_cex :
    buildSrtFromSegments [{ start := -5, «end» := 1, text := "x", extra := [] }] =
      "1\n-1:-1:-5,000 --> 00:00:01,000\nx\n\n" := by
  have h1 : secondsToSrtTime (-5 : ℚ) = "-1:-1:-5,000" := by
    unfold secondsToSrtTime jsRem jsRound jsTrunc
    norm_num [Int.ceil_neg]
    decide
  have h2 : secondsToSrtTime (1 : ℚ) = "00:00:01,000" := by
    unfold secondsToSrtTime jsRem jsRound jsTrunc
    norm_num
    decide
  rw [buildSrtFromSegments_eq_srtDocument]
  simp only [srtDocument, srtCueBlock, h1, h2]
  decide

/-- Claim C4 amended: the Subtitle Track Builder performs no validation
of timing values and has no failure mode at all: even when a segment's
`start` is negative, it produces the document normally, rendering the
malformed segment as an ordinary cue block whose hours field is a
negative number (never a silent coercion to zero, and never a detected
failure). -/
theorem buildSrt_renders_negative_start (s e : ℚ) (t : String)
    (ex : List (String × String)) (rest : List Segment) (hneg : s < 0) :
    buildSrtFromSegments ({ start := s, «end» := e, text := t, extra := ex } :: rest) =
        srtCueBlock 0 { start := s, «end» := e, text := t, extra := ex } ++
          srtDocument 1 rest ∧
      ⌊s / 3600⌋ < 0 := by
  constructor
  · rw [buildSrtFromSegments_eq_srtDocument]
    rfl
  · have h1 : s / 3600 < 0 := div_neg_of_neg_of_pos hneg (by norm_num)
    exact Int.floor_lt.mpr (by exact_mod_cast h1)

/-- Witness for `buildSrt_renders_negative_start` at the concrete
malformed segment `{start := -5, end := 1, text := "x"}`. -/
theorem buildSrt_renders_negative_start_witness :
    buildSrtFromSegments [{ start := -5, «end» := 1, text := "x", extra := [] }] =
        srtCueBlock 0 { start := -5, «end» := 1, text := "x", extra := [] } ++
          srtDocument 1 [] ∧
      ⌊(-5 : ℚ) / 3600⌋ < 0 :=
  buildSrt_renders_negative_start (-5) 1 "x" [] [] (by norm_num)

/-! ## Claim C3 -/

/-- Claim C3 (refuted, documenting the code bug): at `totalSeconds =
3661.9995` the fractional part rounds to 1000 milliseconds, and
`secondsToSrtTime` does not carry it into the seconds field: it renders
the four-digit millisecond field `01:01:01,1000`, not `01:01:02,000`. -/
theorem secondsToSrtTime_boundary_no_carry :
    secondsToSrtTime (7323999/2000 : ℚ) = "01:01:01,1000" ∧
      secondsToSrtTime (7323999/2000 : ℚ) ≠ "01:01:02,000" := by
  have h : secondsToSrtTime (7323999/2000 : ℚ) = "01:01:01,1000" := by
    unfold secondsToSrtTime jsRem jsRound jsTrunc
    norm_num
    decide
  refine ⟨h, ?_⟩
  rw [h]
  decide

/-! ## Claim C7 -/

/-- Claim C7: for every non-negative seconds value whose milliseconds
round below 1000, `secondsToSrtTime` renders exactly the
`HH:MM:SS,mmm` string of the spec formula (floors of the quotient, the
mod-3600 quotient by 60, the mod-60 value, and the rounded scaled
fractional part, zero-padded to 2/2/2/3); in particular 0 renders as
`00:00:00,000`. -/
theorem secondsToSrtTime_matches_spec (q : ℚ) (hq : 0 ≤ q)
    (hms : jsRound ((q - (⌊q⌋ : ℤ)) * 1000) < 1000) :
    secondsToSrtTime q = specSrtTime q ∧ secondsToSrtTime 0 = "00:00:00,000" := by
  constructor
  · unfold secondsToSrtTime specSrtTime jsRound
    rw [jsRem_of_nonneg q 3600 hq (by norm_num), jsRem_of_nonneg q 60 hq (by norm_num)]
  · unfold secondsToSrtTime jsRem jsRound jsTrunc
    norm_num
    decide

/-- Witness for `secondsToSrtTime_matches_spec` at `q = 0`. -/
theorem secondsToSrtTime_matches_spec_witness :
    secondsToSrtTime 0 = specSrtTime 0 ∧ secondsToSrtTime 0 = "00:00:00,000" :=
  secondsToSrtTime_matches_spec 0 le_rfl (by norm_num [jsRound])

/-! ## Promise.all machinery lemmas -/

theorem fillStep_length {ε α : Type} (promises : List (Except ε α))
    (buf : List (Option α)) (j : ℕ) :
    (fillStep promises buf j).length = buf.length := by
  unfold fillStep
  split <;> simp [List.length_set]

theorem foldl_fillStep_length {ε α : Type} (promises : List (Except ε α)) :
    ∀ (order : List ℕ) (buf : List (Option α)),
      (order.foldl (fillStep promises) buf).length = buf.length := by
  intro order
  induction order with
  | nil => intro buf; rfl
  | cons j rest ih => intro buf; rw [List.foldl_cons, ih, fillStep_length]

theorem foldl_fillStep_getElem? {ε α : Type} (promises : List (Except ε α)) (vals : ℕ → α)
    (hok : ∀ j, j < promises.length → promises[j]? = some (Except.ok (vals j))) :
    ∀ (order : List ℕ) (buf : List (Option α)), buf.length = promises.length →
      ∀ i, (order.foldl (fillStep promises) buf)[i]? =
        if i ∈ order ∧ i < promises.length then some (some (vals i)) else buf[i]? := by
  intro order
  induction order with
  | nil =>
    intro buf _ i
    simp
  | cons j rest ih =>
    intro buf hlen i
    rw [List.foldl_cons,
      ih (fillStep promises buf j) (by rw [fillStep_length]; exact hlen) i]
    by_cases hir : i ∈ rest ∧ i < promises.length
    · rw [if_pos hir, if_pos ⟨List.mem_cons_of_mem j hir.1, hir.2⟩]
    · rw [if_neg hir]
      by_cases hj : j < promises.length
      · have hstep : fillStep promises buf j = buf.set j (some (vals j)) := by
          unfold fillStep
          rw [hok j hj]
        rw [hstep]
        by_cases hij : i = j
        · subst hij
          rw [List.getElem?_set_eq_of_lt _ (by rw [hlen]; exact hj),
            if_pos ⟨List.mem_cons_self i rest, hj⟩]
        · rw [List.getElem?_set_ne (by omega)]
          have hnot : ¬(i ∈ j :: rest ∧ i < promises.length) := by
            rintro ⟨hm, hlt⟩
            rcases List.mem_cons.mp hm with h1 | h2
            · exact hij h1
            · exact hir ⟨h2, hlt⟩
          rw [if_neg hnot]
      · have hstep : fillStep promises buf j = buf := by
          unfold fillStep
          have hnone : promises[j]? = none := by
            rw [List.getElem?_eq_none]
            omega
          rw [hnone]
        rw [hstep]
        have hnot : ¬(i ∈ j :: rest ∧ i < promises.length) := by
          rintro ⟨hm, hlt⟩
          rcases List.mem_cons.mp hm with h1 | h2
          · subst h1; exact hj hlt
          · exact hir ⟨h2, hlt⟩
        rw [if_neg hnot]

theorem fillBuffer_of_perm {ε α : Type} (promises : List (Except ε α)) (vals : ℕ → α)
    (order : List ℕ) (hperm : order.Perm (List.range promises.length))
    (hok : ∀ j, j < promises.length → promises[j]? = some (Except.ok (vals j)))
    (i : ℕ) (hi : i < promises.length) :
    (fillBuffer promises order)[i]? = some (some (vals i)) := by
  unfold fillBuffer
  rw [foldl_fillStep_getElem? promises vals hok order _ (by simp) i,
    if_pos ⟨hperm.mem_iff.mpr (List.mem_range.mpr hi), hi⟩]

theorem firstRejection_eq_none_of_ok {ε α : Type} (promises : List (Except ε α))
    (vals : ℕ → α) (order : List ℕ)
    (hperm : order.Perm (List.range promises.length))
    (hok : ∀ j, j < promises.length → promises[j]? = some (Except.ok (vals j))) :
    firstRejection promises order = none := by
  unfold firstRejection
  rw [List.findSome?_eq_none_iff]
  intro j hj
  have hjlt : j < promises.length := by
    have hmem := hperm.mem_iff.mp hj
    rw [List.mem_range] at hmem
    exact hmem
  rw [hok j hjlt]

theorem firstRejection_single {ε α : Type} (promises : List (Except ε α)) (k : ℕ) (e : ε)
    (hk : promises[k]? = some (Except.error e))
    (hothers : ∀ j, j ≠ k → ∀ e' : ε, promises[j]? ≠ some (Except.error e')) :
    ∀ order : List ℕ, k ∈ order → firstRejection promises order = some e := by
  intro order
  induction order with
  | nil => intro h; cases h
  | cons j rest ih =>
    intro hmem
    unfold firstRejection
    rw [List.findSome?_cons]
    by_cases hjk : j = k
    · subst hjk
      rw [hk]
    · have hfj : (match promises[j]? with
          | some (Except.error e') => some e'
          | _ => none) = (none : Option ε) := by
        cases hpj : promises[j]? with
        | none => rfl
        | some x =>
          cases x with
          | error e' => exact absurd hpj (hothers j hjk e')
          | ok v => rfl
      rw [hfj]
      have hkr : k ∈ rest := by
        rcases List.mem_cons.mp hmem with h1 | h2
        · exact absurd h1.symm hjk
        · exact h2
      exact ih hkr

/-! ## translateSegmentsWithGPT lemmas -/

theorem translationCalls_length (client : ℕ → ChatRequest → Except JsError ChatResponse)
    (fromLang toLang model : String) (segments : List Segment) :
    (translationCalls client fromLang toLang model segments).length = segments.length := by
  simp [translationCalls]

theorem translationCalls_getElem? (client : ℕ → ChatRequest → Except JsError ChatResponse)
    (fromLang toLang model : String) (segments : List Segment) (j : ℕ)
    (hj : j < segments.length) :
    (translationCalls client fromLang toLang model segments)[j]? =
      some (client j (mkChatRequest fromLang toLang model (segments.get ⟨j, hj⟩))) := by
  unfold translationCalls
  rw [List.getElem?_map, List.getElem?_enum, List.getElem?_eq_getElem hj]
  simp

theorem segmentText_of_choices_ne_nil (r : ChatResponse) (h : r.data.choices ≠ []) :
    segmentText r = Except.ok (respText r) := by
  cases hc : r.data.choices with
  | nil => exact absurd hc h
  | cons c rest => simp [segmentText, respText, hc]

theorem mapIdxExcept_ok_of (f : ℕ → Segment → Except JsError Segment)
    (g : ℕ → Segment → Segment) :
    ∀ (segs : List Segment) (n : ℕ),
      (∀ i (hi : i < segs.length),
        f (n + i) (segs.get ⟨i, hi⟩) = Except.ok (g (n + i) (segs.get ⟨i, hi⟩))) →
      ∃ out, mapIdxExcept f n segs = Except.ok out ∧ out.length = segs.length ∧
        ∀ i (hi : i < segs.length), out[i]? = some (g (n + i) (segs.get ⟨i, hi⟩)) := by
  intro segs
  induction segs with
  | nil =>
    intro n _
    exact ⟨[], rfl, rfl, fun i hi => absurd hi (by simp)⟩
  | cons seg rest ih =>
    intro n h
    have h0 : f n seg = Except.ok (g n seg) := h 0 (by simp)
    obtain ⟨out', hout', hlen', hptr'⟩ := ih (n + 1) (fun i hi => by
      have := h (i + 1) (by simpa using Nat.succ_lt_succ hi)
      simpa [Nat.add_assoc, Nat.add_comm 1 i] using this)
    refine ⟨g n seg :: out', ?_, by simp [hlen'], ?_⟩
    · unfold mapIdxExcept
      rw [h0, hout']
    · intro i hi
      cases i with
      | zero => simp
      | succ i' =>
        have hi' : i' < rest.length := by simpa using Nat.lt_of_succ_lt_succ hi
        have := hptr' i' hi'
        simpa [Nat.add_assoc, Nat.add_comm 1 i'] using this

theorem translatedSegmentAt_shape (responses : List (Option ChatResponse)) (n : ℕ)
    (seg s : Segment) (h : translatedSegmentAt responses n seg = Except.ok s) :
    s = { seg with text := s.text } := by
  unfold translatedSegmentAt at h
  split at h
  · split at h
    · cases h
    · cases h
      rfl
  · cases h

theorem mapIdxExcept_shape (responses : List (Option ChatResponse)) :
    ∀ (segs : List Segment) (n : ℕ) (out : List Segment),
      mapIdxExcept (translatedSegmentAt responses) n segs = Except.ok out →
      out.length = segs.length ∧
        ∀ i (hi : i < out.length) (hi' : i < segs.length),
          out.get ⟨i, hi⟩ = { segs.get ⟨i, hi'⟩ with text := (out.get ⟨i, hi⟩).text } := by
  intro segs
  induction segs with
  | nil =>
    intro n out h
    cases h
    exact ⟨rfl, fun i hi => absurd hi (by simp)⟩
  | cons seg rest ih =>
    intro n out h
    unfold mapIdxExcept at h
    cases hfs : translatedSegmentAt responses n seg with
    | error e => rw [hfs] at h; cases h
    | ok s =>
      rw [hfs] at h
      cases hrest : mapIdxExcept (translatedSegmentAt responses) (n + 1) rest with
      | error e => rw [hrest] at h; cases h
      | ok tail =>
        rw [hrest] at h
        cases h
        obtain ⟨hlen, hptr⟩ := ih (n + 1) tail hrest
        refine ⟨by simp [hlen], ?_⟩
        intro i hi hi'
        cases i with
        | zero =>
          simpa using translatedSegmentAt_shape responses n seg s hfs
        | succ i' =>
          have h1 : i' < tail.length := by simpa using Nat.lt_of_succ_lt_succ hi
          have h2 : i' < rest.length := by simpa using Nat.lt_of_succ_lt_succ hi'
          simpa using hptr i' h1 h2

/-! ## Claim C1 -/

/-- Claim C1: for every ordered sequence of N segments (including
N = 0, which issues no Translation Client calls and yields an empty
output) and any completion order of the N concurrent requests,
`translateSegmentsWithGPT` fulfills with exactly N translated segments
whose i-th element is built from the i-th input segment and the i-th
response (`{...seg, text: trimmed i-th response text}`), provided every
request fulfills with a well-formed response. -/
theorem translateSegmentsWithGPT_order_preserving
    (segments : List Segment) (fromLang toLang model : String)
    (client : ℕ → ChatRequest → Except JsError ChatResponse)
    (order : List ℕ) (resp : ℕ → ChatResponse)
    (hperm : order.Perm (List.range segments.length))
    (hresp : ∀ i (hi : i < segments.length),
      client i (mkChatRequest fromLang toLang model (segments.get ⟨i, hi⟩)) =
          Except.ok (resp i) ∧ (resp i).data.choices ≠ []) :
    ∃ out, translateSegmentsWithGPT segments fromLang toLang model client order =
        Except.ok out ∧
      out.length = segments.length ∧
      (∀ i (hi : i < segments.length),
        out[i]? = some { segments.get ⟨i, hi⟩ with text := respText (resp i) }) ∧
      (segments = [] →
        translationCalls client fromLang toLang model segments = [] ∧ out = []) := by
  set promises := translationCalls client fromLang toLang model segments with hp
  have hlenp : promises.length = segments.length := by
    rw [hp]; exact translationCalls_length client fromLang toLang model segments
  have hok : ∀ j, j < promises.length → promises[j]? = some (Except.ok (resp j)) := by
    intro j hj
    have hj' : j < segments.length := hlenp ▸ hj
    rw [hp, translationCalls_getElem? client fromLang toLang model segments j hj',
      (hresp j hj').1]
  have hpermP : order.Perm (List.range promises.length) := by rw [hlenp]; exact hperm
  have hfr := firstRejection_eq_none_of_ok promises resp order hpermP hok
  have hfill : ∀ i, i < segments.length →
      (fillBuffer promises order)[i]? = some (some (resp i)) := by
    intro i hi
    exact fillBuffer_of_perm promises resp order hpermP hok i (by omega)
  have happ : ∀ i (hi : i < segments.length),
      translatedSegmentAt (fillBuffer promises order) (0 + i) (segments.get ⟨i, hi⟩) =
        Except.ok { segments.get ⟨i, hi⟩ with text := respText (resp (0 + i)) } := by
    intro i hi
    rw [Nat.zero_add]
    have hred : translatedSegmentAt (fillBuffer promises order) i (segments.get ⟨i, hi⟩) =
        match segmentText (resp i) with
        | Except.error e => Except.error e
        | Except.ok t => Except.ok { segments.get ⟨i, hi⟩ with text := t } := by
      unfold translatedSegmentAt
      rw [hfill i hi]
    rw [hred, segmentText_of_choices_ne_nil (resp i) (hresp i hi).2]
  obtain ⟨out, hout, hlen, hptr⟩ :=
    mapIdxExcept_ok_of (translatedSegmentAt (fillBuffer promises order))
      (fun j seg => { seg with text := respText (resp j) }) segments 0 happ
  have hmain : translateSegmentsWithGPT segments fromLang toLang model client order =
      mapIdxExcept (translatedSegmentAt (fillBuffer promises order)) 0 segments := by
    unfold translateSegmentsWithGPT promiseAll
    rw [← hp, hfr]
  refine ⟨out, by rw [hmain]; exact hout, hlen, ?_, ?_⟩
  · intro i hi
    have := hptr i hi
    simpa using this
  · intro hnil
    subst hnil
    exact ⟨rfl, List.length_eq_zero.mp hlen⟩

/-- Witness for C1: two segments, both requests fulfilled, delivered in
completion order [1, 0] (the second response settles first). -/
theorem translateSegmentsWithGPT_order_preserving_witness :
    ∃ out, translateSegmentsWithGPT demoSegments "de" "en" "gpt-4" demoClient [1, 0] =
        Except.ok out ∧
      out.length = demoSegments.length ∧
      (∀ i (hi : i < demoSegments.length),
        out[i]? = some { demoSegments.get ⟨i, hi⟩ with text := respText (demoResp i) }) ∧
      (demoSegments = [] →
        translationCalls demoClient "de" "en" "gpt-4" demoSegments = [] ∧ out = []) :=
  translateSegmentsWithGPT_order_preserving demoSegments "de" "en" "gpt-4" demoClient
    [1, 0] demoResp (by decide)
    (fun i hi => ⟨rfl, by unfold demoResp; split <;> simp⟩)

/-! ## Claim C2 -/

/-- Claim C2 counterexample: with two segments and the request at
index 0 rejecting (the other fulfilling), `translateSegmentsWithGPT`
does not return a length-2 sequence with a fallback in slot 0 — it
rejects as a whole and returns no sequence at all. -/
theorem translate_single_failure_cex :
    translateSegmentsWithGPT demoSegments "de" "en" "gpt-4" failClient0 [0, 1] =
        Except.error (JsError.rejection "boom") ∧
      ∀ out, translateSegmentsWithGPT demoSegments "de" "en" "gpt-4" failClient0 [0, 1] ≠
        Except.ok out := by
  have h : translateSegmentsWithGPT demoSegments "de" "en" "gpt-4" failClient0 [0, 1] =
      Except.error (JsError.rejection "boom") := rfl
  exact ⟨h, fun out hc => Except.noConfusion (h ▸ hc)⟩

/-- Claim C2 amended: when exactly one of the N translation requests
rejects (all others fulfill), `Promise.all` rejects with that request's
error under every completion order, so `translateSegmentsWithGPT`
rejects as a whole: no sequence is returned, no per-segment fallback
exists, and the failure reaches the orchestrator as a rejection of the
entire per-video translation step. -/
theorem translate_single_failure_rejects
    (segments : List Segment) (fromLang toLang model : String)
    (client : ℕ → ChatRequest → Except JsError ChatResponse) (order : List ℕ)
    (k : ℕ) (e : JsError) (hk : k < segments.length)
    (hperm : order.Perm (List.range segments.length))
    (hfail : client k (mkChatRequest fromLang toLang model (segments.get ⟨k, hk⟩)) =
      Except.error e)
    (hok : ∀ i (hi : i < segments.length), i ≠ k →
      ∃ r, client i (mkChatRequest fromLang toLang model (segments.get ⟨i, hi⟩)) =
        Except.ok r) :
    translateSegmentsWithGPT segments fromLang toLang model client order =
      Except.error e := by
  set promises := translationCalls client fromLang toLang model segments with hp
  have hlenp : promises.length = segments.length := by
    rw [hp]; exact translationCalls_length client fromLang toLang model segments
  have hpk : promises[k]? = some (Except.error e) := by
    rw [hp, translationCalls_getElem? client fromLang toLang model segments k hk, hfail]
  have hothers : ∀ j, j ≠ k → ∀ e' : JsError, promises[j]? ≠ some (Except.error e') := by
    intro j hjk e' hcon
    by_cases hj : j < segments.length
    · obtain ⟨r, hr⟩ := hok j hj hjk
      rw [hp, translationCalls_getElem? client fromLang toLang model segments j hj, hr]
        at hcon
      simp at hcon
    · have hnone : promises[j]? = none := by
        rw [List.getElem?_eq_none]
        omega
      rw [hnone] at hcon
      cases hcon
  have hkmem : k ∈ order := hperm.mem_iff.mpr (List.mem_range.mpr hk)
  have hfr := firstRejection_single promises k e hpk hothers order hkmem
  unfold translateSegmentsWithGPT promiseAll
  rw [← hp, hfr]

/-- Witness for the C2 amended theorem: two segments, request 1
rejects with "timeout", request 0 fulfills, completion order [1, 0];
the whole call rejects with that error. -/
theorem translate_single_failure_rejects_witness :
    translateSegmentsWithGPT demoSegments "de" "en" "gpt-4" failClient1 [1, 0] =
      Except.error (JsError.rejection "timeout") :=
  translate_single_failure_rejects demoSegments "de" "en" "gpt-4" failClient1 [1, 0] 1
    (JsError.rejection "timeout") (by decide) (by decide) rfl
    (fun i hi hik => ⟨okResp, by unfold failClient1; rw [if_neg hik]⟩)

/-! ## Claim C6 -/

/-- Claim C6: whenever `translateSegmentsWithGPT` fulfills, every
output segment carries the `start` and `end` of its input segment
unchanged — translation never alters timing. -/
theorem translate_preserves_timing
    (segments : List Segment) (fromLang toLang model : String)
    (client : ℕ → ChatRequest → Except JsError ChatResponse) (order : List ℕ)
    (out : List Segment)
    (h : translateSegmentsWithGPT segments fromLang toLang model client order =
      Except.ok out) :
    out.length = segments.length ∧
      ∀ i (hi : i < out.length) (hi' : i < segments.length),
        (out.get ⟨i, hi⟩).start = (segments.get ⟨i, hi'⟩).start ∧
        (out.get ⟨i, hi⟩).«end» = (segments.get ⟨i, hi'⟩).«end» := by
  unfold translateSegmentsWithGPT at h
  cases hpa : promiseAll (translationCalls client fromLang toLang model segments) order with
  | error e => rw [hpa] at h; simp at h
  | ok responses =>
    rw [hpa] at h
    obtain ⟨hlen, hptr⟩ := mapIdxExcept_shape responses segments 0 out h
    refine ⟨hlen, ?_⟩
    intro i hi hi'
    have heq := hptr i hi hi'
    exact ⟨by rw [heq], by rw [heq]⟩

/-- Witness for C6 at the concrete two-segment translation run. -/
theorem translate_preserves_timing_witness :
    demoOut.length = demoSegments.length ∧
      ∀ i (hi : i < demoOut.length) (hi' : i < demoSegments.length),
        (demoOut.get ⟨i, hi⟩).start = (demoSegments.get ⟨i, hi'⟩).start ∧
        (demoOut.get ⟨i, hi⟩).«end» = (demoSegments.get ⟨i, hi'⟩).«end» :=
  translate_preserves_timing demoSegments "de" "en" "gpt-4" demoClient [1, 0] demoOut rfl

/-! ## Claim C10 -/

/-- Claim C10: whenever `translateSegmentsWithGPT` fulfills, every
output segment is the object spread `{...seg, text}` of its input
segment: all fields other than `text` — including any extra upstream
properties — pass through verbatim. -/
theorem translate_preserves_extra_fields
    (segments : List Segment) (fromLang toLang model : String)
    (client : ℕ → ChatRequest → Except JsError ChatResponse) (order : List ℕ)
    (out : List Segment)
    (h : translateSegmentsWithGPT segments fromLang toLang model client order =
      Except.ok out) :
    out.length = segments.length ∧
      ∀ i (hi : i < out.length) (hi' : i < segments.length),
        (out.get ⟨i, hi⟩).extra = (segments.get ⟨i, hi'⟩).extra ∧
        out.get ⟨i, hi⟩ =
          { segments.get ⟨i, hi'⟩ with text := (out.get ⟨i, hi⟩).text } := by
  unfold translateSegmentsWithGPT at h
  cases hpa : promiseAll (translationCalls client fromLang toLang model segments) order with
  | error e => rw [hpa] at h; simp at h
  | ok responses =>
    rw [hpa] at h
    obtain ⟨hlen, hptr⟩ := mapIdxExcept_shape responses segments 0 out h
    refine ⟨hlen, ?_⟩
    intro i hi hi'
    have heq := hptr i hi hi'
    exact ⟨by rw [heq], heq⟩

/-- Witness for C10 at the concrete two-segment translation run, whose
segments carry an upstream `id` property. -/
theorem translate_preserves_extra_fields_witness :
    demoOut.length = demoSegments.length ∧
      ∀ i (hi : i < demoOut.length) (hi' : i < demoSegments.length),
        (demoOut.get ⟨i, hi⟩).extra = (demoSegments.get ⟨i, hi'⟩).extra ∧
        demoOut.get ⟨i, hi⟩ =
          { demoSegments.get ⟨i, hi'⟩ with text := (demoOut.get ⟨i, hi⟩).text } :=
  translate_preserves_extra_fields demoSegments "de" "en" "gpt-4" demoClient [1, 0]
    demoOut rfl

/-! ## Claim C8 -/

/-- Claim C8 counterexample: in a batch of two videos where processing
of `a.mp4` fails (its transcription rejects) and `b.mp4` alone would
succeed and produce an output, the run produces no outputs at all —
the failure aborts the batch instead of proceeding to `b.mp4`. -/
theorem main_batch_abort_cex :
    (main batchCollabs "de" "en" ["a.mp4", "b.mp4"]).outputs = [] ∧
      (processVideo batchCollabs "de" "en" initFs "b.mp4").2 = none ∧
      (processVideo batchCollabs "de" "en" initFs "b.mp4").1.outputs =
        ["b with subtitles.mp4"] :=
  ⟨rfl, rfl, rfl⟩

/-- Claim C8 amended: a failure while processing video K propagates to
the single try/catch wrapping the whole loop, so the batch stops there:
the final state is exactly the state at the failure, and the remaining
videos are never attempted (they contribute nothing, whatever they
are). -/
theorem runLoop_aborts_on_failure (c : Collabs) (fromLang toLang : String)
    (st : FsState) (v : String) (rest : List String)
    (h : (processVideo c fromLang toLang st v).2.isSome = true) :
    runLoop c fromLang toLang st (v :: rest) = (processVideo c fromLang toLang st v).1 := by
  unfold runLoop
  cases hpv : processVideo c fromLang toLang st v with
  | mk st' r =>
    rw [hpv] at h
    cases r with
    | none => simp at h
    | some e => rfl

/-- Witness for the C8 amended theorem: the batch ["a.mp4", "b.mp4"]
under `batchCollabs` stops in the state reached when `a.mp4` failed. -/
theorem runLoop_aborts_on_failure_witness :
    runLoop batchCollabs "de" "en" initFs ["a.mp4", "b.mp4"] =
      (processVideo batchCollabs "de" "en" initFs "a.mp4").1 :=
  runLoop_aborts_on_failure batchCollabs "de" "en" initFs "a.mp4" ["b.mp4"] rfl

/-! ## Claim C9 -/

/-- Claim C9 counterexample: a video whose transcription fails reaches
its terminal (failed) state with the extracted temporary audio file
still present — cleanup happens only on the happy path. -/
theorem main_audio_leak_cex :
    (main batchCollabs "de" "en" ["a.mp4"]).audioFiles = ["a.mp3"] ∧
      (main batchCollabs "de" "en" ["a.mp4"]).outputs = [] :=
  ⟨rfl, rfl⟩

/-- Claim C9 amended: once audio extraction has succeeded for a video,
the temporary audio file is removed exactly when that video's
processing succeeds; on every failure path after extraction
(transcription, translation, or compositing rejection) the audio file
remains in place. -/
theorem processVideo_audio_discipline (c : Collabs) (fromLang toLang : String)
    (st : FsState) (v : String) (hex : c.ffmpegExtract v = none) :
    ((processVideo c fromLang toLang st v).2 = none →
        audioPathOf v ∉ (processVideo c fromLang toLang st v).1.audioFiles) ∧
      ((processVideo c fromLang toLang st v).2 ≠ none →
        audioPathOf v ∈ (processVideo c fromLang toLang st v).1.audioFiles) := by
  cases htr : c.transcribe (audioPathOf v) with
  | error e =>
    have hpv : processVideo c fromLang toLang st v =
        ({ st with audioFiles := st.audioFiles ++ [audioPathOf v] }, some e) := by
      unfold processVideo extractAudio
      simp only [hex, htr]
    rw [hpv]
    exact ⟨fun hnone => by simp at hnone, fun _ => by simp⟩
  | ok segments =>
    cases htl : translateSegmentsWithGPT segments fromLang toLang "gpt-4"
        (c.chatClient v) (c.completionOrder v) with
    | error e =>
      have hpv : processVideo c fromLang toLang st v =
          ({ st with audioFiles := st.audioFiles ++ [audioPathOf v] }, some e) := by
        unfold processVideo extractAudio
        simp only [hex, htr, htl]
      rw [hpv]
      exact ⟨fun hnone => by simp at hnone, fun _ => by simp⟩
    | ok tsegs =>
      cases hb : c.ffmpegBurn v (srtPathOf v) (outputPathOf v) with
      | some e =>
        have hpv : processVideo c fromLang toLang st v =
            ({ st with
                audioFiles := st.audioFiles ++ [audioPathOf v],
                srtFiles := st.srtFiles ++ [(srtPathOf v, buildSrtFromSegments tsegs)] },
              some e) := by
          unfold processVideo extractAudio burnSubtitles
          simp only [hex, htr, htl, hb]
        rw [hpv]
        exact ⟨fun hnone => by simp at hnone, fun _ => by simp⟩
      | none =>
        have hpv : processVideo c fromLang toLang st v =
            ({ audioFiles :=
                  (st.audioFiles ++ [audioPathOf v]).filter (fun a => a != audioPathOf v),
                srtFiles := st.srtFiles ++ [(srtPathOf v, buildSrtFromSegments tsegs)],
                outputs := st.outputs ++ [outputPathOf v] },
              none) := by
          unfold processVideo extractAudio burnSubtitles
          simp only [hex, htr, htl, hb]
        rw [hpv]
        constructor
        · intro _
          simp [List.mem_filter]
        · intro hsome
          exact absurd rfl hsome

/-- Witness for the C9 amended theorem at `batchCollabs` and `a.mp4`
(extraction succeeds, transcription then fails). -/
theorem processVideo_audio_discipline_witness :
    ((processVideo batchCollabs "de" "en" initFs "a.mp4").2 = none →
        audioPathOf "a.mp4" ∉
          (processVideo batchCollabs "de" "en" initFs "a.mp4").1.audioFiles) ∧
      ((processVideo batchCollabs "de" "en" initFs "a.mp4").2 ≠ none →
        audioPathOf "a.mp4" ∈
          (processVideo batchCollabs "de" "en" initFs "a.mp4").1.audioFiles) :=
  processVideo_audio_discipline batchCollabs "de" "en" initFs "a.mp4" rfl

end SubGen
